import Mathlib

/-!
Shallow embedding of `velox/dwio/common/SelectiveStructColumnReader.cpp`
(`SelectiveStructColumnReaderBase`): the selective struct column reader's
`skip`, `read`, `recordParentNullsInChildren`, `isChildConstant`,
`tryReuseResult`, `fillRowVectorChildren`, `setConstantField`, `setNullField`,
`getValues` and the no-children branch of `next`.

Bitmaps are embedded as `Nat` with `Nat.testBit` (bit set = non-null for null
buffers, bit set = deleted for mutation buffers, exactly as the raw bits are
used in the source). Row sets are `List Nat`. Helpers of the base class
`SelectiveColumnReader` that are not part of this translation unit
(`prepareRead`/`seekTo`, `filterNulls`, `setReadOffsetRecursive`) are modelled
from the spec and marked as such in their doc comments.
-/

namespace VeloxModel


/-- bits::countBits(bitmap, 0, n): number of set bits at positions [0, n). -/
def countBits (bm : Nat) (n : Nat) : Nat :=
  (List.range n).countP (fun i => bm.testBit i)

/-- bits::forEachUnsetBit(bitmap, 0, n): the indices in [0, n) whose bit is
clear, in increasing order. -/
def unsetBits (bm : Nat) (n : Nat) : List Nat :=
  (List.range n).filter (fun i => !(bm.testBit i))

/-- Number of set bits of `bm` at positions [lo, lo+len). -/
def countRange (bm : Nat) (lo len : Nat) : Nat :=
  ((List.range len).map (fun i => lo + i)).countP (fun i => bm.testBit i)

/-! ### Reader tree for `skip`

`SelectiveStructColumnReaderBase::skip` recurses through a tree of column
readers. A node carries its `readOffset_`, its format null stream
(`nullBits`/`nullPos`, bit set = non-null, as consumed by
`FormatData::skipNulls`), a counter of physical values the leaf was told to
skip (leaf bookkeeping of `formatData_->skip`), and its children. `isStruct`
distinguishes a struct reader (the code of this file) from a leaf reader
(base-class `skip`, which consumes physical values and leaves `readOffset_`
untouched). -/

mutual

inductive Reader where
  | mk (isStruct : Bool) (readOffset : Nat) (nullBits : Nat) (nullPos : Nat)
       (physSkipped : Nat) (children : ReaderList)

inductive ReaderList where
  | nil
  | cons (head : Reader) (tail : ReaderList)

end

def Reader.readOffset : Reader → Nat
  | .mk _ ro _ _ _ _ => ro

mutual

/-- Modelled from the spec: `setReadOffsetRecursive` (declared in
`SelectiveStructColumnReader.h`, not part of this translation unit) "forcibly
resets each child's externally-visible read-offset ... recursively", i.e. it
sets `readOffset_` of the receiver and of every descendant to the given
position. -/
def Reader.setReadOffsetRecursive : Reader → Nat → Reader
  | .mk k _ nb np ps cs, p => .mk k p nb np ps (setAllOffsets cs p)

/-- Recursive helper of `Reader.setReadOffsetRecursive` over a child list. -/
def setAllOffsets : ReaderList → Nat → ReaderList
  | .nil, _ => .nil
  | .cons c cs, p => .cons (c.setReadOffsetRecursive p) (setAllOffsets cs p)

end

mutual

/-- Embeds `SelectiveStructColumnReaderBase::skip(numValues)`. For a struct node:
`numNonNulls = formatData_->skipNulls(numValues)` (count of non-null entries
among the next `numValues` of the null stream), then for every child
`child->skip(numNonNulls); child->setReadOffsetRecursive(child->readOffset() +
numValues)`, and the call returns `numValues`. A leaf node models the
base-class `skip`: it consumes `numValues` physical values and leaves
`readOffset_` unchanged. -/
def Reader.skip : Reader → Nat → Reader × Nat
  | .mk true ro nb np ps cs, n =>
      (.mk true ro nb (np + n) ps (skipChildren cs (countRange nb np n) n), n)
  | .mk false ro nb np ps cs, n =>
      (.mk false ro nb (np + n) (ps + n) cs, n)

/-- The child loop of `SelectiveStructColumnReaderBase::skip`: each child is
skipped by `numNonNulls` and then its read offset is reset recursively to its
(post-skip) read offset plus `numValues`. -/
def skipChildren : ReaderList → Nat → Nat → ReaderList
  | .nil, _, _ => .nil
  | .cons c cs, k, n =>
      .cons (((c.skip k).1).setReadOffsetRecursive (((c.skip k).1).readOffset + n))
            (skipChildren cs k n)

end

mutual

/-- Decides whether every read offset in the subtree equals `p`. -/
def Reader.allOffsetsEq : Reader → Nat → Bool
  | .mk _ ro _ _ _ cs, p => (ro == p) && allOffsetsEqList cs p

/-- Extends `Reader.allOffsetsEq` over a child list. -/
def allOffsetsEqList : ReaderList → Nat → Bool
  | .nil, _ => true
  | .cons c cs, p => c.allOffsetsEq p && allOffsetsEqList cs p

end

/-- Pairwise relation between a pre-skip child list and a post-skip child
list: every node of each new child subtree sits at the corresponding old
child's read offset plus `n`. -/
def alignedAfterSkip : ReaderList → ReaderList → Nat → Bool
  | .nil, .nil, _ => true
  | .cons c cs, .cons c' cs', n =>
      c'.allOffsetsEq (c.readOffset + n) && alignedAfterSkip cs cs' n
  | _, _, _ => false

/-! ### The `read` path

`SelectiveStructColumnReaderBase::read(offset, rows, incomingNulls)` is
embedded as a function from an explicit reader state plus call arguments to a
result state together with a log of the externally visible calls it makes on
its children (`advanceFieldReader`, `child->read`, selectivity accounting,
`child->addParentNulls`). Child readers are format-specific collaborators;
their only behavior the struct reader observes in this path is
`outputRows()` after a filtered read, supplied here as an oracle function. -/

/-- velox::common::ScanSpec::kNoChannel. -/
def kNoChannel : Nat := 4294967295

/-- SelectiveStructColumnReaderBase::kConstantChildSpecSubscript. -/
def kConstantChildSpecSubscript : Int := -1

/-- The fields of a scan-spec child node consumed by the read path. -/
structure ChildSpec where
  isConstant : Bool
  channel : Nat
  subscript : Int
  projectOut : Bool
  hasFilter : Bool
  extractValues : Bool
deriving DecidableEq, Repr

instance : Inhabited ChildSpec := ⟨⟨false, 0, 0, false, false, false⟩⟩

/-- A child column reader as observed by the struct reader's `read` loop:
`isTopLevel()` and the row set `outputRows()` it reports after a filtered
`read(offset, rows, nulls)` (an oracle for the format-specific decode). -/
structure ChildReader where
  isTopLevel : Bool
  outputRowsAfterRead : Nat → List Nat → List Nat

instance : Inhabited ChildReader := ⟨⟨false, fun _ _ => []⟩⟩

/-- Externally visible calls `read` makes on the children, tagged by the
child-spec position in schema order. -/
inductive Event where
  | advanceField (child : Nat) (offset : Nat)
  | childRead (child : Nat) (offset : Nat) (rows : List Nat) (nulls : Option Nat)
  | selectivity (child : Nat) (numIn : Nat) (numOut : Nat)
  | addParentNulls (child : Nat) (offset : Nat) (nulls : Option Nat) (rows : List Nat)
deriving DecidableEq, Repr

/-- True exactly for an `addParentNulls` event of child-spec position `i`. -/
def Event.isAddParentNullsFor (i : Nat) : Event → Bool
  | .addParentNulls j _ _ _ => i == j
  | _ => false

/-- The struct reader state entering one `read` call. `formatNulls` is the
null bitmap `prepareRead` computes into `nullsInReadRange_` for this window
(its computation, `FormatData::readNulls` merging format nulls with
`incomingNulls`, is format-specific and supplied as data; bit set =
non-null). `structFilter`: the scan spec's own filter, restricted by the
`VELOX_CHECK` in `read` to `some true` (kIsNull) or `some false`
(kIsNotNull). `specHasFilter` is `scanSpec_->hasFilter()`. -/
structure StructReader where
  childSpecs : List ChildSpec
  children : List ChildReader
  structFilter : Option Bool
  specHasFilter : Bool
  parentNullsInLeaves : Bool
  formatNulls : Option Nat
  hasMutation : Bool
  deletedRows : Nat
  isRoot : Bool
  fileKindIsMap : Bool
  fileTypeSize : Nat
  readOffset : Nat
  lazyVectorReadOffset : Nat

/-- SelectiveStructColumnReaderBase::isChildConstant. -/
def isChildConstant (r : StructReader) (spec : ChildSpec) : Bool :=
  spec.isConstant ||
    (!r.isRoot && spec.channel != kNoChannel && !r.fileKindIsMap &&
      decide (spec.channel ≥ r.fileTypeSize))

/-- Modelled from the spec: `SelectiveColumnReader::filterNulls` (base class,
not part of this translation unit) evaluates an is-null / is-not-null filter
"against the struct null bitmap, narrowing active rows further": it keeps the
rows whose null state matches `keepNull`. A row is null when the bitmap is
present and its bit is clear; with no bitmap in the read range no row is
null. -/
def filterNulls (nulls : Option Nat) (rows : List Nat) (keepNull : Bool) : List Nat :=
  match nulls with
  | none => if keepNull then [] else rows
  | some bm => rows.filter (fun row => (!(bm.testBit row)) == keepNull)

/-- The child loop of `recordParentNullsInChildren`, starting at child-spec
position `i`: `addParentNulls(offset, nullsInReadRange_, rows)` on every
non-constant child. -/
def recordParentNullsLoop (r : StructReader) (nulls : Option Nat)
    (offset : Nat) (rows : List Nat) : Nat → List ChildSpec → List Event
  | _, [] => []
  | i, spec :: rest =>
    if isChildConstant r spec then
      recordParentNullsLoop r nulls offset rows (i + 1) rest
    else
      Event.addParentNulls i offset nulls rows
        :: recordParentNullsLoop r nulls offset rows (i + 1) rest

/-- SelectiveStructColumnReaderBase::recordParentNullsInChildren: nothing if
the format injects parent nulls in the leaves, otherwise
`addParentNulls(offset, nullsInReadRange_, rows)` on every non-constant
child. -/
def recordParentNullsInChildren (r : StructReader) (nulls : Option Nat)
    (offset : Nat) (rows : List Nat) : List Event :=
  if r.parentNullsInLeaves then []
  else recordParentNullsLoop r nulls offset rows 0 r.childSpecs

/-- The child loop of `read` (source lines 133-165), starting at child-spec
position `i`. Returns the final `activeRows`, the event log, and the
successive values taken by `activeRows` (one entry per reassignment from a
filtered child's `outputRows()`). -/
def childLoop (r : StructReader) (offset : Nat) (nulls : Option Nat) :
    Nat → List ChildSpec → List Nat → List Nat × List Event × List (List Nat)
  | _, [], active => (active, [], [])
  | i, spec :: rest, active =>
    if isChildConstant r spec then childLoop r offset nulls (i + 1) rest active
    else
      let reader := r.children.getD spec.subscript.toNat default
      if reader.isTopLevel && spec.projectOut && !spec.hasFilter
          && !spec.extractValues then
        childLoop r offset nulls (i + 1) rest active
      else if spec.hasFilter then
        let out := reader.outputRowsAfterRead offset active
        let evs := [Event.advanceField i offset,
          Event.childRead i offset active nulls,
          Event.selectivity i active.length out.length]
        if out.isEmpty then (out, evs, [out])
        else
          let res := childLoop r offset nulls (i + 1) rest out
          (res.1, evs ++ res.2.1, out :: res.2.2)
      else
        let res := childLoop r offset nulls (i + 1) rest active
        (res.1,
          Event.advanceField i offset :: Event.childRead i offset active nulls
            :: res.2.1,
          res.2.2)

/-- The observable outcome of one `read` call: the cursor fields, the final
`outputRows_`, `nullsInReadRange_`, the log of calls made on children, the
trace of values taken by `activeRows` (first entry: the input `rows`), and
whether a `VELOX_CHECK` aborted the call (`children_` empty at the loop). -/
structure ReadResult where
  readOffset : Nat
  lazyVectorReadOffset : Nat
  outputRows : List Nat
  nullsInReadRange : Option Nat
  events : List Event
  activeTrace : List (List Nat)
  fatal : Bool

/-- The child loop, `recordParentNullsInChildren`, `setOutputRows` and the
final cursor updates of `read` (source lines 131-174). -/
def readLoopAndFinish (r : StructReader) (offset : Nat) (rows : List Nat)
    (back : Nat) (nulls : Option Nat) (outRows active : List Nat)
    (trace : List (List Nat)) : ReadResult :=
  if r.children.isEmpty then
    -- VELOX_CHECK(!children_.empty()): fatal contract violation.
    { readOffset := offset, lazyVectorReadOffset := r.lazyVectorReadOffset,
      outputRows := outRows, nullsInReadRange := nulls, events := [],
      activeTrace := trace, fatal := true }
  else
    let loop := childLoop r offset nulls 0 r.childSpecs active
    { readOffset := offset + back + 1, lazyVectorReadOffset := offset,
      outputRows := if r.specHasFilter then loop.1 else outRows,
      nullsInReadRange := nulls,
      events := loop.2.1 ++ recordParentNullsInChildren r nulls offset rows,
      activeTrace := trace ++ loop.2.2, fatal := false }

/-- Tail of `read` from the struct-filter check to the end (source lines
117-174). `back` is `rows.back()`, `outRows` the current `outputRows_`. -/
def readTail (r : StructReader) (offset : Nat) (rows : List Nat) (back : Nat)
    (nulls : Option Nat) (outRows active : List Nat)
    (trace : List (List Nat)) : ReadResult :=
  match r.structFilter with
  | some keepNull =>
    let filtered := filterNulls nulls active keepNull
    if filtered.isEmpty then
      -- Early return: recordParentNullsInChildren over the full rows, and
      -- (unlike every other exit) no update of readOffset_.
      { readOffset := offset, lazyVectorReadOffset := r.lazyVectorReadOffset,
        outputRows := filtered, nullsInReadRange := nulls,
        events := recordParentNullsInChildren r nulls offset rows,
        activeTrace := trace ++ [filtered], fatal := false }
    else readLoopAndFinish r offset rows back nulls filtered filtered
      (trace ++ [filtered])
  | none => readLoopAndFinish r offset rows back nulls outRows active trace

/-- SelectiveStructColumnReaderBase::read(offset, rows, incomingNulls).
`prepareRead` (base class, not part of this translation unit) is modelled
from its contract: `seekTo` leaves `readOffset_ = offset`, `outputRows_` is
cleared, and `nullsInReadRange_` receives the bitmap computed for this window
(`r.formatNulls`). The mutation branch then rebuilds `outputRows_` from the
unset bits of the deleted-rows bitmap and returns early when nothing
survives. -/
def structRead (r : StructReader) (offset : Nat) (rows : List Nat) : ReadResult :=
  let nulls := r.formatNulls
  let back := rows.getLastD 0
  if r.hasMutation then
    let survivors := unsetBits r.deletedRows (back + 1)
    if survivors.isEmpty then
      { readOffset := offset + back + 1,
        lazyVectorReadOffset := r.lazyVectorReadOffset,
        outputRows := survivors, nullsInReadRange := nulls, events := [],
        activeTrace := [rows], fatal := false }
    else readTail r offset rows back nulls survivors survivors
      [rows, survivors]
  else readTail r offset rows back nulls [] rows [rows]

/-- A struct reader with one non-constant, eagerly read child and an is-null
filter on the struct itself, over a window with no nulls: the filter keeps no
row. -/
def readerFilterAllOut : StructReader :=
  { childSpecs := [⟨false, 0, 0, true, false, true⟩],
    children := [⟨true, fun _ rs => rs⟩],
    structFilter := some true,
    specHasFilter := true,
    parentNullsInLeaves := false,
    formatNulls := none,
    hasMutation := false, deletedRows := 0,
    isRoot := true, fileKindIsMap := false, fileTypeSize := 1,
    readOffset := 10, lazyVectorReadOffset := 0 }

/-- A struct reader with one non-constant child, a top-level mutation whose
deleted-rows bitmap 0b111 marks rows 0, 1, 2 all deleted, and no struct
filter. -/
def readerAllDeleted : StructReader :=
  { childSpecs := [⟨false, 0, 0, true, false, true⟩],
    children := [⟨true, fun _ rs => rs⟩],
    structFilter := none,
    specHasFilter := true,
    parentNullsInLeaves := false,
    formatNulls := none,
    hasMutation := true, deletedRows := 7,
    isRoot := true, fileKindIsMap := false, fileTypeSize := 1,
    readOffset := 0, lazyVectorReadOffset := 0 }

/-- A struct reader whose only child reports an empty output row set after
any filtered read. -/
def readerChildFilterEmpty : StructReader :=
  { childSpecs := [⟨false, 0, 0, true, true, false⟩],
    children := [⟨true, fun _ _ => []⟩],
    structFilter := none,
    specHasFilter := true,
    parentNullsInLeaves := false,
    formatNulls := none,
    hasMutation := false, deletedRows := 0,
    isRoot := true, fileKindIsMap := false, fileTypeSize := 1,
    readOffset := 0, lazyVectorReadOffset := 0 }

/-- A struct reader with one non-constant, eagerly read child, no struct
filter and a null bitmap in the read range. -/
def readerPlainChild : StructReader :=
  { childSpecs := [⟨false, 0, 0, true, false, true⟩],
    children := [⟨true, fun _ rs => rs⟩],
    structFilter := none,
    specHasFilter := true,
    parentNullsInLeaves := false,
    formatNulls := some 5,
    hasMutation := false, deletedRows := 0,
    isRoot := true, fileKindIsMap := false, fileTypeSize := 1,
    readOffset := 0, lazyVectorReadOffset := 0 }

/-! ### The `getValues` path

Result vectors are embedded as trees carrying, per node, the encoding, the
uniqueness of the handle (`VectorPtr::unique()`, i.e. whether the holder of
this handle is its sole owner) and the payload `getValues` inspects. Values
of scalar cells are abstracted to `Nat`. -/

/-- A result vector as `getValues` observes it. `rowV`: a RowVector with its
raw null-buffer bits (bit set = non-null) and child columns (`none` =
nullptr child). `lazyV`: a LazyVector (loaded flag, logical size, wrapped
vector). `dictV`: a dictionary wrapper over its values vector. `constV`: a
constant vector (value at row 0, `none` = null constant). `flatV`: any other
terminal encoding. -/
inductive Vec where
  | rowV (uniq : Bool) (nulls : List Bool) (fields : List (Option Vec))
  | lazyV (uniq : Bool) (loaded : Bool) (size : Nat) (inner : Vec)
  | dictV (uniq : Bool) (inner : Vec)
  | constV (uniq : Bool) (val : Option Nat) (size : Nat)
  | flatV (uniq : Bool) (size : Nat)
deriving Repr

/-- VectorPtr::unique() on the handle held for this node. -/
def Vec.uniq : Vec → Bool
  | .rowV u _ _ => u
  | .lazyV u _ _ _ => u
  | .dictV u _ => u
  | .constV u _ _ => u
  | .flatV u _ => u

/-- BaseVector::isConstantEncoding. -/
def Vec.isConstantEncoding : Vec → Bool
  | .constV .. => true
  | _ => false

/-- Whether the encoding is ROW. -/
def Vec.isRowEnc : Vec → Bool
  | .rowV .. => true
  | _ => false

/-- BaseVector::size. A RowVector's logical size is tracked through its null
list here; only constant and lazy sizes are consulted by this path. -/
def Vec.size : Vec → Nat
  | .rowV _ nulls _ => nulls.length
  | .lazyV _ _ n _ => n
  | .dictV _ inner => inner.size
  | .constV _ _ n => n
  | .flatV _ n => n

/-- BaseVector::isNullAt(0) for the constant vectors this path inspects. -/
def Vec.isNullAt0 : Vec → Bool
  | .constV _ val _ => val.isNone
  | _ => false

/-- The value at row 0 of a constant vector, for equalValueAt(·, 0, 0). -/
def Vec.valAt0 : Vec → Option Nat
  | .constV _ val _ => val
  | _ => none

/-- BaseVector::resize on the vectors this path resizes (constants). -/
def Vec.resize (v : Vec) (n : Nat) : Vec :=
  match v with
  | .constV u val _ => .constV u val n
  | v => v

/-- The child columns of a RowVector. -/
def Vec.rowFields : Vec → List (Option Vec)
  | .rowV _ _ fields => fields
  | _ => []

/-- tryReuseResult (source lines 242-268): a non-unique handle is never
reused; a ROW is reused in place (reuseNulls and
clearContainingLazyAndWrapped preserve its identity); a loaded LazyVector
unwraps into its loaded vector and a dictionary into its values vector,
both re-checking uniqueness of the inner handle; every other encoding (and
an unloaded LazyVector) forces a fresh allocation. -/
def tryReuseResult : Vec → Option Vec
  | .rowV true nulls fields => some (.rowV true nulls fields)
  | .lazyV true loaded _ inner =>
    if loaded then tryReuseResult inner else none
  | .dictV true inner => tryReuseResult inner
  | _ => none

/-- Whether unwrapping through loaded-lazy and dictionary layers reaches a
row, with no uniqueness demand on the inner layers. -/
def unwrapReachesRow : Vec → Bool
  | .rowV .. => true
  | .lazyV _ loaded _ inner => loaded && unwrapReachesRow inner
  | .dictV _ inner => unwrapReachesRow inner
  | _ => false

/-- The reuse condition as the specification words it (claim-side
definition for the refinement comparison): "(a) the caller holds the sole
reference to it, and (b) unwrapping through any lazy/dictionary wrapper
layers (recursively) eventually reaches a concrete row-typed container" -
uniqueness demanded of the outer handle only. -/
def specReusable (v : Vec) : Bool :=
  v.uniq && unwrapReachesRow v

/-- The condition tryReuseResult actually implements: uniqueness at every
layer along the unwrap path, ending at a row. -/
def reusableAllLayers : Vec → Bool
  | .rowV u _ _ => u
  | .lazyV u loaded _ inner => u && (loaded && reusableAllLayers inner)
  | .dictV u inner => u && reusableAllLayers inner
  | _ => false

/-- The result's row type (result->type()->asRow()), as the list of its
field types. -/
inductive VType where
  | rowT (fields : List VType)
  | scalarT
deriving Repr

/-- Whether a type is a row type. -/
def VType.isRow : VType → Bool
  | .rowT _ => true
  | .scalarT => false

/-- fillRowVectorChildren (source lines 227-240): positions whose type is a
row get an empty RowVector with recursively filled children; all other
positions stay nullptr. -/
def fillRowVectorChildren : List VType → List (Option Vec)
  | [] => []
  | .rowT fs :: ts =>
    some (Vec.rowV true [] (fillRowVectorChildren fs))
      :: fillRowVectorChildren ts
  | .scalarT :: ts => none :: fillRowVectorChildren ts

/-- The scan-spec child node fields consumed by `getValues` and `next`
(the same ScanSpec children as `ChildSpec`, viewed with the constant value
payload this path needs; constant values are abstracted to `Option Nat`,
`none` = null). -/
structure FieldSpec where
  projectOut : Bool
  channel : Nat
  isConstant : Bool
  constantVal : Option Nat
  subscript : Int
  extractValues : Bool
  hasFilter : Bool
deriving DecidableEq, Repr

/-- A child column reader as `getValues` observes it: `isTopLevel()` and the
vector its own `getValues(rows, &childResult)` produces (an oracle for the
format-specific decode). -/
structure FieldReader where
  isTopLevel : Bool
  getValuesResult : List Nat → Option Vec → Vec

instance : Inhabited FieldReader := ⟨⟨false, fun _ _ => Vec.flatV true 0⟩⟩

/-- Externally visible actions of the `getValues` child loop, tagged by the
child-spec position in schema order. -/
inductive GVEvent where
  | childGetValues (child : Nat)
  | syncOutputRows (rows : List Nat)
  | lazyReset (child : Nat)
  | lazyNew (child : Nat)
deriving DecidableEq, Repr

/-- setConstantField (source lines 270-280): a unique, non-empty constant
wrapper holding the same value is resized in place, otherwise
`BaseVector::wrapInConstant(size, 0, constant)` allocates a new wrapper. -/
def setConstantField (c : Option Nat) (size : Nat) (field : Option Vec) :
    Vec :=
  match field with
  | some f =>
    if f.isConstantEncoding && f.uniq && decide (0 < f.size)
        && (f.valAt0 == c) then
      f.resize size
    else Vec.constV true c size
  | none => Vec.constV true c size

/-- setNullField (source lines 282-289): a unique, non-empty constant
wrapper that is null at row 0 is resized in place; otherwise the code calls
`BaseVector::createNullConstant(field->type(), size, field->pool())`, which
dereferences `field` - a crash (modelled `none`) when no previous field
vector exists. -/
def setNullField (size : Nat) (field : Option Vec) : Option Vec :=
  match field with
  | some f =>
    if f.isConstantEncoding && f.uniq && decide (0 < f.size)
        && f.isNullAt0 then
      some (f.resize size)
    else some (Vec.constV true none size)
  | none => none

/-- The struct reader state entering one `getValues` call: the scan-spec
children, the child readers, `nullsInReadRange_` (bit set = non-null) and
the size of the reader's current `outputRows_`. -/
structure GVState where
  specs : List FieldSpec
  children : List FieldReader
  nullsInReadRange : Option Nat
  outputRowsSize : Nat

/-- The child loop of `getValues` (source lines 330-372), over the
enumerated child specs, threading the result's field columns and the
`lazyPrepared` flag. `none` models the crash in `setNullField`. -/
def gvChildLoop (st : GVState) (rows : List Nat) :
    List (Nat × FieldSpec) → List (Option Vec) → Bool →
    Option (List (Option Vec) × List GVEvent)
  | [], fields, _ => some (fields, [])
  | (i, spec) :: rest, fields, lazyPrepared =>
    if !spec.projectOut then gvChildLoop st rows rest fields lazyPrepared
    else if spec.isConstant then
      gvChildLoop st rows rest
        (fields.set spec.channel
          (some (setConstantField spec.constantVal rows.length
            (fields.getD spec.channel none))))
        lazyPrepared
    else if spec.subscript == kConstantChildSpecSubscript then
      match setNullField rows.length (fields.getD spec.channel none) with
      | none => none
      | some f =>
        gvChildLoop st rows rest (fields.set spec.channel (some f))
          lazyPrepared
    else if spec.extractValues || spec.hasFilter
        || !(st.children.getD spec.subscript.toNat default).isTopLevel then
      match gvChildLoop st rows rest
          (fields.set spec.channel
            (some ((st.children.getD spec.subscript.toNat
              default).getValuesResult rows
                (fields.getD spec.channel none))))
          lazyPrepared with
      | none => none
      | some (fs, evs) => some (fs, GVEvent.childGetValues i :: evs)
    else
      let syncEvs :=
        if !lazyPrepared && (rows.length != st.outputRowsSize) then
          [GVEvent.syncOutputRows rows]
        else []
      let wrapped :=
        match fields.getD spec.channel none with
        | some (Vec.lazyV true _ _ inner) =>
          (Vec.lazyV true false rows.length inner, GVEvent.lazyReset i)
        | _ =>
          (Vec.lazyV true false rows.length (Vec.flatV true 0),
            GVEvent.lazyNew i)
      match gvChildLoop st rows rest (fields.set spec.channel
          (some wrapped.1)) true with
      | none => none
      | some (fs, evs) => some (fs, syncEvs ++ wrapped.2 :: evs)

/-- The observable outcome of one `getValues` call: the result's logical row
count after resize, its raw null-buffer bits (entry i = bit of output row i,
set = non-null), its field columns and the child-loop action log. -/
structure GVOut where
  size : Nat
  nulls : List Bool
  fields : List (Option Vec)
  events : List GVEvent

/-- SelectiveStructColumnReaderBase::getValues (source lines 293-373).
`rowType` is `result->type()->asRow()` as field types. `none` models a
fatal `VELOX_CHECK` (no children, null result handle, non-row result) or
the `setNullField` crash. The result is reused via `tryReuseResult` or
freshly allocated with `fillRowVectorChildren`, resized to `rows.size()`
(returning right away when that is zero), its null bits copied one per
output row from `nullsInReadRange_` (all marked non-null when absent), and
the children filled per spec. -/
def structGetValues (st : GVState) (rowType : List VType) (rows : List Nat)
    (result : Option Vec) : Option GVOut :=
  match result with
  | none => none
  | some res =>
    if st.children.isEmpty then none
    else if !res.isRowEnc then none
    else
      let fields0 :=
        match tryReuseResult res with
        | some v => v.rowFields
        | none => fillRowVectorChildren rowType
      if rows.isEmpty then some ⟨0, [], fields0, []⟩
      else
        let nulls :=
          match st.nullsInReadRange with
          | some bm => rows.map (fun row => bm.testBit row)
          | none => List.replicate rows.length true
        match gvChildLoop st rows st.specs.enum fields0 false with
        | none => none
        | some (fields, evs) => some ⟨rows.length, nulls, fields, evs⟩

/-- A getValues state with one projected, eagerly extracted child over a
window whose null bitmap is 0b101 (rows 0 and 2 non-null, row 1 null). -/
def gvStateEager : GVState :=
  { specs := [⟨true, 0, false, none, 0, true, false⟩],
    children := [⟨true, fun _ _ => Vec.flatV true 3⟩],
    nullsInReadRange := some 5,
    outputRowsSize := 0 }

/-- The batch `getValues` produces for `gvStateEager` on rows [0, 1, 2]. -/
def gvOutEager : GVOut :=
  ⟨3, [true, false, true], [some (Vec.flatV true 3)],
    [GVEvent.childGetValues 0]⟩

/-- A getValues state with one projected child whose scan-spec subscript is
the missing-from-file sentinel. -/
def gvStateMissingField : GVState :=
  { specs := [⟨true, 0, false, none, -1, false, false⟩],
    children := [⟨true, fun _ _ => Vec.flatV true 0⟩],
    nullsInReadRange := none,
    outputRowsSize := 0 }

/-! ### The no-children branch of `next` -/

/-- The resize target of `next` with no child readers: `numValues` minus the
deleted rows counted in the mutation bitmap over [0, numValues), or
`numValues` with no bitmap (source lines 60-62). -/
def nextResize (numValues : Nat) (deletedRows : Option Nat) : Nat :=
  match deletedRows with
  | some bm => numValues - countBits bm numValues
  | none => numValues

/-- The child-spec loop of the no-children branch of `next` (source lines
72-77): `VELOX_CHECK(childSpec->isConstant())` (a non-constant spec is a
fatal assertion, modelled `none`), then the spec's constant value is wrapped
at size `n` into the result's child slot at the spec's channel. -/
def wrapConstants (n : Nat) :
    List FieldSpec → List (Option Vec) → Option (List (Option Vec))
  | [], fields => some fields
  | spec :: rest, fields =>
    if spec.isConstant then
      wrapConstants n rest
        (fields.set spec.channel (some (Vec.constV true spec.constantVal n)))
    else none

/-- The `children_.empty()` branch of SelectiveStructColumnReaderBase::next
(source lines 59-79): no read is issued; the result is resized and each
child spec is wrapped as a constant of that size at its channel. -/
def structNextNoChildren (specs : List FieldSpec) (numValues : Nat)
    (deletedRows : Option Nat) (resultFields : List (Option Vec)) :
    Option (Nat × List (Option Vec)) :=
  match wrapConstants (nextResize numValues deletedRows) specs resultFields with
  | some fields => some (nextResize numValues deletedRows, fields)
  | none => none

/-! ### Theorems -/

mutual

theorem Reader.setRec_allOffsets (r : Reader) (p : Nat) :
    (r.setReadOffsetRecursive p).allOffsetsEq p = true := by
  cases r with
  | mk k ro nb np ps cs =>
    simp only [Reader.setReadOffsetRecursive, Reader.allOffsetsEq,
      Bool.and_eq_true, beq_self_eq_true, true_and]
    exact setAllOffsets_allOffsetsEq cs p

theorem setAllOffsets_allOffsetsEq (cs : ReaderList) (p : Nat) :
    allOffsetsEqList (setAllOffsets cs p) p = true := by
  cases cs with
  | nil => rfl
  | cons c cs =>
    simp only [setAllOffsets, allOffsetsEqList, Bool.and_eq_true]
    exact ⟨Reader.setRec_allOffsets c p, setAllOffsets_allOffsetsEq cs p⟩

end

theorem Reader.skip_readOffset (r : Reader) (n : Nat) :
    ((r.skip n).1).readOffset = r.readOffset := by
  cases r with
  | mk k ro nb np ps cs => cases k <;> rfl

theorem skipChildren_aligned :
    ∀ (cs : ReaderList) (k n : Nat),
      alignedAfterSkip cs (skipChildren cs k n) n = true
  | .nil, _, _ => rfl
  | .cons c cs, k, n => by
    simp only [skipChildren, alignedAfterSkip, Bool.and_eq_true]
    refine ⟨?_, skipChildren_aligned cs k n⟩
    rw [← Reader.skip_readOffset c k]
    exact Reader.setRec_allOffsets ((c.skip k).1) (((c.skip k).1).readOffset + n)

/-- C3: `skip(numValues)` on the struct reader returns `numValues`; every
child is skipped by exactly `numNonNulls = formatData_->skipNulls(numValues)`
(the count of non-null entries among the next `numValues` of the struct's
null stream) and then has its read offset reset, recursively through all
descendants, to that child's old read offset plus `numValues` (not plus
`numNonNulls`). -/
theorem struct_skip_returns_and_realigns
    (ro nb np ps n : Nat) (cs : ReaderList) :
    ((Reader.mk true ro nb np ps cs).skip n).2 = n ∧
    ((Reader.mk true ro nb np ps cs).skip n).1
      = Reader.mk true ro nb (np + n) ps
          (skipChildren cs (countRange nb np n) n) ∧
    alignedAfterSkip cs (skipChildren cs (countRange nb np n) n) n = true :=
  ⟨rfl, rfl, skipChildren_aligned cs (countRange nb np n) n⟩

/-- C1: REFUTED by the code. When the struct's own is-null filter leaves no
rows, `read` returns early without advancing `readOffset_` (source lines
124-127): at offset 10 with rows [0, 1, 2] the reader's `readOffset` stays at
the seek position 10 instead of offset + last requested row index + 1 = 13,
so subsequent reads (`next` calls `read(readOffset_, ...)`) would re-read the
same window; every other branch does advance it. -/
theorem read_filterEmpty_keeps_readOffset :
    (structRead readerFilterAllOut 10 [0, 1, 2]).readOffset = 10 ∧
    (10 : Nat) ≠ 10 + 2 + 1 := by decide

/-- C5: a `read` whose mutation marks every row of the dense input row set
deleted advances `readOffset` past the whole window and returns early with an
empty output row set, making no call on any child (no child read, no child
offset change via `advanceFieldReader`, no `addParentNulls`). -/
theorem read_mutation_all_deleted
    (r : StructReader) (offset : Nat) (rows : List Nat)
    (hm : r.hasMutation = true)
    (_hdense : rows = List.range (rows.getLastD 0 + 1))
    (hdel : ∀ i ≤ rows.getLastD 0, r.deletedRows.testBit i = true) :
    (structRead r offset rows).readOffset = offset + rows.getLastD 0 + 1 ∧
    (structRead r offset rows).events = [] ∧
    (structRead r offset rows).outputRows = [] := by
  have hempty : unsetBits r.deletedRows (rows.getLastD 0 + 1) = [] := by
    refine List.filter_eq_nil_iff.mpr ?_
    intro a ha
    have := hdel a (by
      have := List.mem_range.mp ha
      omega)
    simp [this]
  unfold structRead
  rw [hm]
  simp only [if_pos rfl, hempty]
  exact ⟨by simp, by simp, by simp [hempty]⟩

/-- Witness for C5 at the reader `readerAllDeleted`, offset 4, rows
[0, 1, 2]. -/
theorem read_mutation_all_deleted_witness :
    (structRead readerAllDeleted 4 [0, 1, 2]).readOffset = 4 + 2 + 1 ∧
    (structRead readerAllDeleted 4 [0, 1, 2]).events = [] ∧
    (structRead readerAllDeleted 4 [0, 1, 2]).outputRows = [] :=
  read_mutation_all_deleted readerAllDeleted 4 [0, 1, 2] (by decide)
    (by decide) (by decide)

/-- C6: when a filtered child's post-filter output row set is empty, the
child loop stops at that child: the loop's result is exactly the events for
that child (advance, read, selectivity accounting), and equals the loop run
with every later child spec removed, so no later child is read or charged. -/
theorem childLoop_short_circuit
    (r : StructReader) (offset i : Nat) (nulls : Option Nat)
    (spec : ChildSpec) (rest : List ChildSpec) (active : List Nat)
    (hconst : isChildConstant r spec = false)
    (hfilter : spec.hasFilter = true)
    (hempty : (r.children.getD spec.subscript.toNat
        default).outputRowsAfterRead offset active = []) :
    childLoop r offset nulls i (spec :: rest) active
      = ([], [Event.advanceField i offset,
              Event.childRead i offset active nulls,
              Event.selectivity i active.length 0], [[]]) ∧
    childLoop r offset nulls i (spec :: rest) active
      = childLoop r offset nulls i [spec] active := by
  have hempty' : (r.children[spec.subscript.toNat]?.getD
      default).outputRowsAfterRead offset active = [] := by
    rw [← List.getD_eq_getElem?_getD]; exact hempty
  constructor <;>
    simp [childLoop, hconst, hfilter, hempty']

theorem addParentNulls_not_in_childLoop (r : StructReader) (offset : Nat)
    (nulls : Option Nat) :
    ∀ (specs : List ChildSpec) (i : Nat) (active : List Nat) (j o : Nat)
      (nl : Option Nat) (rs : List Nat),
      Event.addParentNulls j o nl rs
        ∉ (childLoop r offset nulls i specs active).2.1
  | [], _, _, _, _, _, _ => by simp [childLoop]
  | spec :: rest, i, active, j, o, nl, rs => by
    simp only [childLoop]
    split
    · exact addParentNulls_not_in_childLoop r offset nulls rest (i + 1) active
        j o nl rs
    · split
      · exact addParentNulls_not_in_childLoop r offset nulls rest (i + 1)
          active j o nl rs
      · split
        · split
          · simp
          · intro hmem
            rcases List.mem_append.mp hmem with h | h
            · simp at h
            · exact addParentNulls_not_in_childLoop r offset nulls rest (i + 1)
                ((r.children.getD spec.subscript.toNat
                  default).outputRowsAfterRead offset active) j o nl rs h
        · intro hmem
          rcases List.mem_cons.mp hmem with h | h
          · simp at h
          rcases List.mem_cons.mp h with h2 | h2
          · simp at h2
          · exact addParentNulls_not_in_childLoop r offset nulls rest (i + 1)
              active j o nl rs h2

theorem mem_recordParentNullsLoop (r : StructReader) (nulls : Option Nat)
    (offset : Nat) (rows : List Nat) :
    ∀ (specs : List ChildSpec) (j i : Nat),
      (Event.addParentNulls i offset nulls rows
          ∈ recordParentNullsLoop r nulls offset rows j specs)
        ↔ ∃ p, p < specs.length ∧ i = j + p ∧
            isChildConstant r (specs.getD p default) = false
  | [], j, i => by simp [recordParentNullsLoop]
  | spec :: rest, j, i => by
    simp only [recordParentNullsLoop]
    split
    · rename_i hc
      rw [mem_recordParentNullsLoop r nulls offset rows rest (j + 1) i]
      constructor
      · rintro ⟨p, hp, hip, hcp⟩
        refine ⟨p + 1, ?_, by omega, by simpa using hcp⟩
        simpa using Nat.succ_lt_succ hp
      · rintro ⟨p, hp, hip, hcp⟩
        match p with
        | 0 => simp [hc] at hcp
        | p + 1 =>
          refine ⟨p, ?_, by omega, by simpa using hcp⟩
          simpa using Nat.lt_of_succ_lt_succ hp
    · rename_i hc
      have hcf : isChildConstant r spec = false := by simpa using hc
      simp only [List.mem_cons]
      rw [mem_recordParentNullsLoop r nulls offset rows rest (j + 1) i]
      constructor
      · rintro (heq | ⟨p, hp, hip, hcp⟩)
        · have hij : i = j := by simpa using heq
          exact ⟨0, by simp, by omega, by simpa using hcf⟩
        · refine ⟨p + 1, ?_, by omega, by simpa using hcp⟩
          simpa using Nat.succ_lt_succ hp
      · rintro ⟨p, hp, hip, hcp⟩
        match p with
        | 0 =>
          left
          have hij : i = j := by omega
          simp [hij]
        | p + 1 =>
          right
          refine ⟨p, ?_, by omega, by simpa using hcp⟩
          simpa using Nat.lt_of_succ_lt_succ hp

theorem mem_recordParentNullsInChildren (r : StructReader) (nulls : Option Nat)
    (offset : Nat) (rows : List Nat) (i : Nat)
    (hi : i < r.childSpecs.length) :
    (Event.addParentNulls i offset nulls rows
        ∈ recordParentNullsInChildren r nulls offset rows)
      ↔ (r.parentNullsInLeaves = false ∧
          isChildConstant r (r.childSpecs.getD i default) = false) := by
  unfold recordParentNullsInChildren
  split
  · rename_i h
    simp [h]
  · rename_i h
    have hl : r.parentNullsInLeaves = false := by simpa using h
    rw [mem_recordParentNullsLoop r nulls offset rows r.childSpecs 0 i]
    simp only [hl, true_and]
    constructor
    · rintro ⟨p, hp, hip, hcp⟩
      have : p = i := by omega
      subst this
      exact hcp
    · intro hcp
      exact ⟨i, hi, by omega, hcp⟩

theorem readLoopAndFinish_addParentNulls (r : StructReader) (offset : Nat)
    (rows : List Nat) (back : Nat) (nulls : Option Nat)
    (outRows active : List Nat) (trace : List (List Nat))
    (hchild : r.children ≠ []) (i : Nat) (hi : i < r.childSpecs.length) :
    (Event.addParentNulls i offset nulls rows
        ∈ (readLoopAndFinish r offset rows back nulls outRows active
            trace).events)
      ↔ (r.parentNullsInLeaves = false ∧
          isChildConstant r (r.childSpecs.getD i default) = false) := by
  unfold readLoopAndFinish
  rw [if_neg (by simpa [List.isEmpty_iff] using hchild)]
  simp only [List.mem_append]
  rw [mem_recordParentNullsInChildren r nulls offset rows i hi]
  constructor
  · rintro (h | h)
    · exact absurd h
        (addParentNulls_not_in_childLoop r offset nulls r.childSpecs 0 active
          i offset nulls rows)
    · exact h
  · intro h
    exact Or.inr h

theorem readTail_addParentNulls (r : StructReader) (offset : Nat)
    (rows : List Nat) (back : Nat) (nulls : Option Nat)
    (outRows active : List Nat) (trace : List (List Nat))
    (hchild : r.children ≠ []) (i : Nat) (hi : i < r.childSpecs.length) :
    (Event.addParentNulls i offset nulls rows
        ∈ (readTail r offset rows back nulls outRows active trace).events)
      ↔ (r.parentNullsInLeaves = false ∧
          isChildConstant r (r.childSpecs.getD i default) = false) := by
  cases hf : r.structFilter with
  | none =>
    simp only [readTail, hf]
    exact readLoopAndFinish_addParentNulls r offset rows back nulls
      outRows active trace hchild i hi
  | some keepNull =>
    simp only [readTail, hf]
    split
    · exact mem_recordParentNullsInChildren r nulls offset rows i hi
    · exact readLoopAndFinish_addParentNulls r offset rows back nulls
        (filterNulls nulls active keepNull)
        (filterNulls nulls active keepNull)
        (trace ++ [filterNulls nulls active keepNull]) hchild i hi

/-- C2 (amended): on every branch of `read` other than the top-level
mutation early return (all rows deleted, no child touched) and a fatal
contract abort (no children configured), the struct's null bitmap is
propagated via `addParentNulls` over the full original row set into exactly
the non-constant children, and only when the format does not inject parent
nulls at the leaves; when it does, no struct-level propagation happens: for
each (struct, child) pair exactly one of the two mechanisms fires. -/
theorem read_parentNulls_exclusive
    (r : StructReader) (offset : Nat) (rows : List Nat) (i : Nat)
    (hmut : r.hasMutation = false ∨
      unsetBits r.deletedRows (rows.getLastD 0 + 1) ≠ [])
    (hchild : r.children ≠ [])
    (hi : i < r.childSpecs.length) :
    (Event.addParentNulls i offset r.formatNulls rows
        ∈ (structRead r offset rows).events)
      ↔ (r.parentNullsInLeaves = false ∧
          isChildConstant r (r.childSpecs.getD i default) = false) := by
  unfold structRead
  by_cases hmb : r.hasMutation = true
  · have hsurv : unsetBits r.deletedRows (rows.getLastD 0 + 1) ≠ [] := by
      rcases hmut with h | h
      · rw [hmb] at h; cases h
      · exact h
    rw [if_pos hmb, if_neg (by simpa [List.isEmpty_iff] using hsurv)]
    exact readTail_addParentNulls r offset rows (rows.getLastD 0) r.formatNulls
      (unsetBits r.deletedRows (rows.getLastD 0 + 1))
      (unsetBits r.deletedRows (rows.getLastD 0 + 1))
      [rows, unsetBits r.deletedRows (rows.getLastD 0 + 1)] hchild i hi
  · rw [if_neg hmb]
    exact readTail_addParentNulls r offset rows (rows.getLastD 0) r.formatNulls
      [] rows [rows] hchild i hi

/-- Witness for C2 (amended) at a non-mutation read with one non-constant
child and struct-level propagation enabled. -/
theorem read_parentNulls_exclusive_witness :
    (Event.addParentNulls 0 0 (some 5) [0, 1, 2]
        ∈ (structRead readerPlainChild 0 [0, 1, 2]).events)
      ↔ (readerPlainChild.parentNullsInLeaves = false ∧
          isChildConstant readerPlainChild
            (readerPlainChild.childSpecs.getD 0 default) = false) :=
  read_parentNulls_exclusive readerPlainChild 0 [0, 1, 2] 0 (Or.inl rfl)
    (List.cons_ne_nil _ _) (by decide)

/-- C2 counterexample (the claim as stated): on the mutation early-return
branch, with a format that does not inject parent nulls at the leaves and a
non-constant child, `read` performs no `addParentNulls` call at all, against
"propagated into every non-constant child on every branch the call can
take". -/
theorem read_mutation_branch_skips_parentNulls :
    (Event.addParentNulls 0 4 none [0, 1, 2]
        ∉ (structRead readerAllDeleted 4 [0, 1, 2]).events) ∧
    readerAllDeleted.parentNullsInLeaves = false ∧
    isChildConstant readerAllDeleted
      (readerAllDeleted.childSpecs.getD 0 default) = false ∧
    (structRead readerAllDeleted 4 [0, 1, 2]).events = [] := by decide

/-- Witness for C6: a two-child loop where the first child's filter leaves
nothing; the second child never appears in the log. -/
theorem childLoop_short_circuit_witness :
    childLoop readerChildFilterEmpty 0 none 0
        [⟨false, 0, 0, true, true, false⟩, ⟨false, 1, 0, true, false, true⟩]
        [0, 1]
      = ([], [Event.advanceField 0 0,
              Event.childRead 0 0 [0, 1] none,
              Event.selectivity 0 2 0], [[]]) ∧
    childLoop readerChildFilterEmpty 0 none 0
        [⟨false, 0, 0, true, true, false⟩, ⟨false, 1, 0, true, false, true⟩]
        [0, 1]
      = childLoop readerChildFilterEmpty 0 none 0
          [⟨false, 0, 0, true, true, false⟩] [0, 1] :=
  childLoop_short_circuit readerChildFilterEmpty 0 0 none
    ⟨false, 0, 0, true, true, false⟩ [⟨false, 1, 0, true, false, true⟩]
    [0, 1] (by decide) (by decide) rfl

theorem filterNulls_subset (nulls : Option Nat) (rows : List Nat)
    (keepNull : Bool) : filterNulls nulls rows keepNull ⊆ rows := by
  cases nulls with
  | none =>
    cases keepNull with
    | false => exact fun a h => h
    | true => exact List.nil_subset rows
  | some bm => exact fun a ha => (List.mem_filter.mp ha).1

theorem childAt_subset (r : StructReader)
    (hc : ∀ c ∈ r.children, ∀ off (rs : List Nat),
      c.outputRowsAfterRead off rs ⊆ rs)
    (idx off : Nat) (rs : List Nat) :
    (r.children.getD idx default).outputRowsAfterRead off rs ⊆ rs := by
  rw [List.getD_eq_getElem?_getD]
  cases h : r.children[idx]? with
  | none => exact List.nil_subset rs
  | some c => exact hc c (List.getElem?_mem h) off rs

theorem childLoop_chain (r : StructReader) (offset : Nat) (nulls : Option Nat)
    (hc : ∀ c ∈ r.children, ∀ off (rs : List Nat),
      c.outputRowsAfterRead off rs ⊆ rs) :
    ∀ (specs : List ChildSpec) (i : Nat) (active : List Nat),
      List.Chain' (fun a b => b ⊆ a)
        (active :: (childLoop r offset nulls i specs active).2.2)
  | [], i, active => by simp [childLoop]
  | spec :: rest, i, active => by
    simp only [childLoop]
    split
    · exact childLoop_chain r offset nulls hc rest (i + 1) active
    · split
      · exact childLoop_chain r offset nulls hc rest (i + 1) active
      · split
        · split
          · exact List.chain'_cons.mpr
              ⟨childAt_subset r hc spec.subscript.toNat offset active,
                List.chain'_singleton _⟩
          · exact List.chain'_cons.mpr
              ⟨childAt_subset r hc spec.subscript.toNat offset active,
                childLoop_chain r offset nulls hc rest (i + 1)
                  ((r.children.getD spec.subscript.toNat
                    default).outputRowsAfterRead offset active)⟩
        · exact childLoop_chain r offset nulls hc rest (i + 1) active

theorem chain_head_subset :
    ∀ (l : List (List Nat)) (x : List Nat),
      List.Chain' (fun a b => b ⊆ a) (x :: l) → ∀ s ∈ l, s ⊆ x
  | [], _, _, s, hs => absurd hs (List.not_mem_nil s)
  | y :: l, x, h, s, hs => by
    rcases List.chain'_cons.mp h with ⟨hyx, hrest⟩
    rcases List.mem_cons.mp hs with heq | hs2
    · exact heq ▸ hyx
    · exact (chain_head_subset l y hrest s hs2).trans hyx

theorem head?_append_of_last (trace l : List (List Nat)) (a : List Nat)
    (hlast : trace.getLast? = some a) :
    (trace ++ l).head? = trace.head? := by
  cases trace with
  | nil => simp at hlast
  | cons t ts => rfl

theorem readLoopAndFinish_chain (r : StructReader) (offset : Nat)
    (rows : List Nat) (back : Nat) (nulls : Option Nat)
    (outRows active : List Nat) (trace : List (List Nat))
    (hc : ∀ c ∈ r.children, ∀ off (rs : List Nat),
      c.outputRowsAfterRead off rs ⊆ rs)
    (ht : List.Chain' (fun a b => b ⊆ a) trace)
    (hlast : trace.getLast? = some active) :
    List.Chain' (fun a b => b ⊆ a)
      (readLoopAndFinish r offset rows back nulls outRows active
        trace).activeTrace ∧
    (readLoopAndFinish r offset rows back nulls outRows active
      trace).activeTrace.head? = trace.head? := by
  unfold readLoopAndFinish
  split
  · exact ⟨ht, rfl⟩
  · have hloop := childLoop_chain r offset nulls hc r.childSpecs 0 active
    constructor
    · refine List.Chain'.append ht hloop.tail ?_
      intro x hx y hy
      rw [hlast] at hx
      rcases List.chain'_cons'.mp hloop with ⟨hrel, _⟩
      have hxa : x = active := by
        injection hx with h
        exact h.symm
      exact hxa ▸ hrel y hy
    · exact head?_append_of_last trace _ active hlast

theorem readTail_chain (r : StructReader) (offset : Nat) (rows : List Nat)
    (back : Nat) (nulls : Option Nat) (outRows active : List Nat)
    (trace : List (List Nat))
    (hc : ∀ c ∈ r.children, ∀ off (rs : List Nat),
      c.outputRowsAfterRead off rs ⊆ rs)
    (ht : List.Chain' (fun a b => b ⊆ a) trace)
    (hlast : trace.getLast? = some active) :
    List.Chain' (fun a b => b ⊆ a)
      (readTail r offset rows back nulls outRows active trace).activeTrace ∧
    (readTail r offset rows back nulls outRows active
      trace).activeTrace.head? = trace.head? := by
  cases hf : r.structFilter with
  | none =>
    simp only [readTail, hf]
    exact readLoopAndFinish_chain r offset rows back nulls outRows active
      trace hc ht hlast
  | some keepNull =>
    have hchain2 : List.Chain' (fun a b => b ⊆ a)
        (trace ++ [filterNulls nulls active keepNull]) := by
      refine List.Chain'.append ht (List.chain'_singleton _) ?_
      intro x hx y hy
      rw [hlast] at hx
      have hxa : x = active := by
        injection hx with h
        exact h.symm
      have hyf : filterNulls nulls active keepNull = y := by
        simpa using hy
      rw [hxa, ← hyf]
      exact filterNulls_subset nulls active keepNull
    have hlast2 : (trace ++ [filterNulls nulls active keepNull]).getLast?
        = some (filterNulls nulls active keepNull) := by
      simp
    simp only [readTail, hf]
    split
    · exact ⟨hchain2, head?_append_of_last trace _ active hlast⟩
    · have := readLoopAndFinish_chain r offset rows back nulls
        (filterNulls nulls active keepNull)
        (filterNulls nulls active keepNull)
        (trace ++ [filterNulls nulls active keepNull]) hc hchain2 hlast2
      exact ⟨this.1, this.2.trans (head?_append_of_last trace _ active hlast)⟩

/-- C4: within one `read` call the active row set narrows monotonically:
the trace of values taken by `activeRows` (starting at the input `rows`,
then after the mutation narrowing, the struct-level null filter and each
per-child filter) forms a chain in which every set is a subset of its
predecessor, and every set is a subset of the input rows. Hypotheses:
the dense-row-set contract of the mutation branch (the `VELOX_DCHECK`),
and the child-reader contract that a filtered child's output rows come
from its input rows. -/
theorem read_activeRows_monotone
    (r : StructReader) (offset : Nat) (rows : List Nat)
    (hc : ∀ c ∈ r.children, ∀ off (rs : List Nat),
      c.outputRowsAfterRead off rs ⊆ rs)
    (hdense : r.hasMutation = true → rows = List.range (rows.getLastD 0 + 1)) :
    (structRead r offset rows).activeTrace.head? = some rows ∧
    List.Chain' (fun a b => b ⊆ a) (structRead r offset rows).activeTrace ∧
    ∀ s ∈ (structRead r offset rows).activeTrace, s ⊆ rows := by
  have hmain : (structRead r offset rows).activeTrace.head? = some rows ∧
      List.Chain' (fun a b => b ⊆ a) (structRead r offset rows).activeTrace := by
    unfold structRead
    by_cases hm : r.hasMutation = true
    · rw [if_pos hm]
      have hsub : unsetBits r.deletedRows (rows.getLastD 0 + 1) ⊆ rows := by
        intro a ha
        rw [hdense hm]
        exact (List.mem_filter.mp ha).1
      by_cases hse :
          (unsetBits r.deletedRows (rows.getLastD 0 + 1)).isEmpty = true
      · rw [if_pos hse]
        exact ⟨rfl, List.chain'_singleton rows⟩
      · rw [if_neg hse]
        have := readTail_chain r offset rows (rows.getLastD 0) r.formatNulls
          (unsetBits r.deletedRows (rows.getLastD 0 + 1))
          (unsetBits r.deletedRows (rows.getLastD 0 + 1))
          [rows, unsetBits r.deletedRows (rows.getLastD 0 + 1)] hc
          (List.chain'_cons.mpr ⟨hsub, List.chain'_singleton _⟩) rfl
        exact ⟨this.2, this.1⟩
    · rw [if_neg hm]
      have := readTail_chain r offset rows (rows.getLastD 0) r.formatNulls
        [] rows [rows] hc (List.chain'_singleton rows) rfl
      exact ⟨this.2, this.1⟩
  refine ⟨hmain.1, hmain.2, ?_⟩
  intro s hs
  cases htr : (structRead r offset rows).activeTrace with
  | nil => rw [htr] at hs; exact absurd hs (List.not_mem_nil s)
  | cons t ts =>
    have hhead := hmain.1
    rw [htr] at hhead
    have htt : t = rows := by injection hhead
    have hchain := hmain.2
    rw [htr, htt] at hchain
    rw [htr, htt] at hs
    rcases List.mem_cons.mp hs with heq | hs2
    · exact heq ▸ fun a h => h
    · exact chain_head_subset ts rows hchain s hs2

/-- Witness for C4 at a mutation read whose only child's filter keeps
nothing. -/
theorem read_activeRows_monotone_witness :
    (structRead readerAllDeleted 4 [0, 1, 2]).activeTrace.head?
        = some [0, 1, 2] ∧
    List.Chain' (fun a b => b ⊆ a)
      (structRead readerAllDeleted 4 [0, 1, 2]).activeTrace ∧
    ∀ s ∈ (structRead readerAllDeleted 4 [0, 1, 2]).activeTrace,
      s ⊆ [0, 1, 2] :=
  read_activeRows_monotone readerAllDeleted 4 [0, 1, 2]
    (by
      intro c hcm off rs
      have hc1 : c = ⟨true, fun _ rs => rs⟩ := by
        simpa [readerAllDeleted] using hcm
      subst hc1
      exact fun a h => h)
    (fun _ => by decide)

theorem tryReuse_eq_allLayers :
    ∀ v : Vec, (tryReuseResult v).isSome = reusableAllLayers v
  | .rowV u n f => by cases u <;> simp [tryReuseResult, reusableAllLayers]
  | .lazyV u l s i => by
    cases u <;> cases l <;>
      simp [tryReuseResult, reusableAllLayers, tryReuse_eq_allLayers i]
  | .dictV u i => by
    cases u <;> simp [tryReuseResult, reusableAllLayers, tryReuse_eq_allLayers i]
  | .constV u v s => by cases u <;> simp [tryReuseResult, reusableAllLayers]
  | .flatV u s => by cases u <;> simp [tryReuseResult, reusableAllLayers]

theorem fillRowVectorChildren_shape :
    ∀ ts : List VType, (fillRowVectorChildren ts).length = ts.length ∧
      ∀ i, i < ts.length →
        ((fillRowVectorChildren ts).getD i none).isSome
          = (ts.getD i .scalarT).isRow
  | [] => ⟨by simp [fillRowVectorChildren],
      fun i hi => absurd hi (Nat.not_lt_zero i)⟩
  | .rowT fs :: ts => by
    refine ⟨by simp [fillRowVectorChildren,
      (fillRowVectorChildren_shape ts).1], ?_⟩
    intro i hi
    match i with
    | 0 => simp [fillRowVectorChildren, VType.isRow]
    | i + 1 =>
      simp only [fillRowVectorChildren, List.getD_cons_succ]
      exact (fillRowVectorChildren_shape ts).2 i
        (Nat.lt_of_succ_lt_succ (by simpa using hi))
  | .scalarT :: ts => by
    refine ⟨by simp [fillRowVectorChildren,
      (fillRowVectorChildren_shape ts).1], ?_⟩
    intro i hi
    match i with
    | 0 => simp [fillRowVectorChildren, VType.isRow]
    | i + 1 =>
      simp only [fillRowVectorChildren, List.getD_cons_succ]
      exact (fillRowVectorChildren_shape ts).2 i
        (Nat.lt_of_succ_lt_succ (by simpa using hi))

/-- C7 (amended): the previous result container is reused in place exactly
when every handle along the unwrap path (the outer handle and each loaded
lazy / dictionary layer it unwraps through, recursively) is uniquely held
and the path ends at a concrete row-typed container; otherwise a fresh
row-typed container is allocated in which exactly the struct-typed fields
are pre-populated (by an empty nested row container) and non-struct fields
are left unset. -/
theorem tryReuse_unique_every_layer :
    (∀ v : Vec, (tryReuseResult v).isSome = reusableAllLayers v) ∧
    (∀ ts : List VType, (fillRowVectorChildren ts).length = ts.length ∧
      ∀ i, i < ts.length →
        ((fillRowVectorChildren ts).getD i none).isSome
          = (ts.getD i .scalarT).isRow) :=
  ⟨tryReuse_eq_allLayers, fillRowVectorChildren_shape⟩

/-- Witness for C7 (amended): a unique loaded lazy wrapper over a unique row
is reused; the fresh-allocation shape instantiated at [row, scalar]. -/
theorem tryReuse_unique_every_layer_witness :
    ((tryReuseResult (Vec.lazyV true true 3 (Vec.rowV true [] []))).isSome
        = reusableAllLayers (Vec.lazyV true true 3 (Vec.rowV true [] []))) ∧
    ((fillRowVectorChildren [VType.rowT [], VType.scalarT]).getD 0
        none).isSome = (VType.rowT []).isRow :=
  ⟨tryReuse_unique_every_layer.1 (Vec.lazyV true true 3 (Vec.rowV true [] [])),
    (tryReuse_unique_every_layer.2 [VType.rowT [], VType.scalarT]).2 0
      (by decide)⟩

/-- C7 counterexample (the claim as stated): a uniquely held, loaded lazy
wrapper whose loaded row vector is itself referenced elsewhere. The claim's
reuse condition (sole reference to the outer container, unwrapping reaches a
row) holds, yet tryReuseResult refuses the reuse because the inner handle is
not unique, and getValues allocates a fresh container instead. -/
theorem tryReuse_sharedInner_not_reused :
    tryReuseResult (Vec.lazyV true true 3 (Vec.rowV false [] [])) = none ∧
    specReusable (Vec.lazyV true true 3 (Vec.rowV false [] [])) = true :=
  ⟨rfl, rfl⟩

/-- C8: a completed `getValues(rows, result)` call (non-null row-typed
result, children configured) produces a batch of exactly `rows.size()`
logical rows whose null bit at output position i equals the bit at `rows[i]`
of `nullsInReadRange_` when that bitmap is present, and is non-null (bit
set) for all i when it is absent. -/
theorem getValues_size_and_nulls
    (st : GVState) (rowType : List VType) (rows : List Nat) (res : Vec)
    (out : GVOut)
    (h : structGetValues st rowType rows (some res) = some out) :
    out.size = rows.length ∧
    ∀ i, i < rows.length →
      out.nulls.getD i false
        = (match st.nullsInReadRange with
           | some bm => bm.testBit (rows.getD i 0)
           | none => true) := by
  simp only [structGetValues] at h
  by_cases hce : st.children.isEmpty = true
  · rw [if_pos hce] at h
    cases h
  rw [if_neg hce] at h
  by_cases hre : (!res.isRowEnc) = true
  · rw [if_pos hre] at h
    cases h
  rw [if_neg hre] at h
  by_cases hem : rows.isEmpty = true
  · rw [if_pos hem] at h
    have hr0 : rows.length = 0 := by
      rw [List.isEmpty_iff.mp hem]
      rfl
    injection h with h2
    rw [← h2, hr0]
    exact ⟨rfl, fun i hi => absurd hi (Nat.not_lt_zero i)⟩
  rw [if_neg hem] at h
  cases hm : gvChildLoop st rows st.specs.enum
      (match tryReuseResult res with
       | some v => v.rowFields
       | none => fillRowVectorChildren rowType) false with
  | none =>
    rw [hm] at h
    cases h
  | some pair =>
    rw [hm] at h
    injection h with h2
    rw [← h2]
    refine ⟨rfl, ?_⟩
    intro i hi
    cases hn : st.nullsInReadRange with
    | some bm =>
      simp only [hn, List.getD_eq_getElem?_getD, List.getElem?_map,
        List.getElem?_eq_getElem hi]
      rfl
    | none =>
      simp only [hn, List.getD_eq_getElem?_getD]
      rw [List.getElem?_replicate_of_lt hi]
      rfl

/-- Witness for C8 at `gvStateEager`, rows [0, 1, 2], a unique row-typed
previous result. -/
theorem getValues_size_and_nulls_witness :
    gvOutEager.size = [0, 1, 2].length ∧
    ∀ i, i < [0, 1, 2].length →
      gvOutEager.nulls.getD i false
        = (match gvStateEager.nullsInReadRange with
           | some bm => bm.testBit ([0, 1, 2].getD i 0)
           | none => true) :=
  getValues_size_and_nulls gvStateEager [VType.scalarT] [0, 1, 2]
    (Vec.rowV true [] [none]) gvOutEager rfl

/-- C9: REFUTED by the code in the no-previous-wrapper case. `setNullField`
(source line 287) calls `BaseVector::createNullConstant(field->type(), size,
field->pool())` on the branch that runs precisely when `field` may be null:
with no previous field vector at the missing child's channel (a freshly
filled result leaves non-struct fields as nullptr), the call dereferences a
null pointer instead of allocating the promised null constant, and the whole
`getValues` call crashes; upstream velox passes the type and pool as
separate arguments. -/
theorem getValues_missing_field_crashes :
    setNullField 1 none = none ∧
    structGetValues gvStateMissingField [VType.scalarT] [0]
      (some (Vec.rowV true [] [none])) = none :=
  ⟨rfl, rfl⟩

theorem wrapConstants_none_of_nonconst (n : Nat) :
    ∀ (specs : List FieldSpec) (fields : List (Option Vec)) (s : FieldSpec),
      s ∈ specs → s.isConstant = false →
      wrapConstants n specs fields = none
  | [], _, s, hs, _ => absurd hs (List.not_mem_nil s)
  | spec :: rest, fields, s, hs, hc => by
    simp only [wrapConstants]
    split
    · rename_i hsc
      rcases List.mem_cons.mp hs with heq | hmem
      · rw [heq] at hc
        rw [hc] at hsc
        cases hsc
      · exact wrapConstants_none_of_nonconst n rest _ s hmem hc
    · rfl

theorem wrapConstants_preserves (n : Nat) :
    ∀ (specs : List FieldSpec) (fields : List (Option Vec)) (c : Nat)
      (fs : List (Option Vec)),
      c ∉ specs.map FieldSpec.channel →
      wrapConstants n specs fields = some fs →
      fs.getD c none = fields.getD c none
  | [], fields, c, fs, _, heq => by
    injection heq with h2
    rw [h2]
  | spec :: rest, fields, c, fs, hnm, heq => by
    simp only [wrapConstants] at heq
    split at heq
    · have hne : spec.channel ≠ c := by
        intro hch
        exact hnm (by simp [← hch])
      have := wrapConstants_preserves n rest
        (fields.set spec.channel (some (Vec.constV true spec.constantVal n)))
        c fs (by
          intro hmem
          exact hnm (by simp [List.mem_cons]; exact Or.inr (by simpa using hmem)))
        heq
      rw [this, List.getD_eq_getElem?_getD, List.getElem?_set_ne hne,
        ← List.getD_eq_getElem?_getD]
    · cases heq

theorem wrapConstants_all_some (n : Nat) :
    ∀ (specs : List FieldSpec) (fields : List (Option Vec)),
      (∀ s ∈ specs, s.isConstant = true) →
      ∃ fs, wrapConstants n specs fields = some fs ∧
        fs.length = fields.length ∧
        ((specs.map FieldSpec.channel).Nodup →
          ∀ s ∈ specs, s.channel < fields.length →
            fs.getD s.channel none
              = some (Vec.constV true s.constantVal n))
  | [], fields, _ =>
    ⟨fields, rfl, rfl, fun _ s hs => absurd hs (List.not_mem_nil s)⟩
  | spec :: rest, fields, hall => by
    have hsc : spec.isConstant = true := hall spec (List.mem_cons_self spec rest)
    obtain ⟨fs, heq, hlen, hget⟩ := wrapConstants_all_some n rest
      (fields.set spec.channel (some (Vec.constV true spec.constantVal n)))
      (fun s hs => hall s (List.mem_cons_of_mem spec hs))
    refine ⟨fs, by simp only [wrapConstants, hsc, if_pos]; exact heq,
      by rw [hlen, List.length_set], ?_⟩
    intro hnodup s hs hlt
    have h2 := hnodup
    rw [List.map_cons, List.nodup_cons] at h2
    rcases List.mem_cons.mp hs with heqs | hmem
    · subst heqs
      rw [wrapConstants_preserves n rest _ s.channel fs h2.1 heq,
        List.getD_eq_getElem?_getD,
        List.getElem?_set_self (by simpa using hlt)]
      rfl
    · exact hget h2.2 s hmem (by simpa using hlt)

/-- C10: `next(numValues, result, mutation)` on a struct reader with zero
child readers issues no read: the result is resized to `numValues` minus the
deleted rows counted in the mutation bitmap over [0, numValues) (or to
`numValues` with no bitmap), every child scan-spec node is wrapped as a
constant column of that size at its channel, and a child scan-spec node that
is not constant is a fatal assertion. -/
theorem next_no_children_wraps_constants
    (specs : List FieldSpec) (numValues : Nat) (deletedRows : Option Nat)
    (resultFields : List (Option Vec)) :
    ((∀ s ∈ specs, s.isConstant = true) →
      ∃ fields,
        structNextNoChildren specs numValues deletedRows resultFields
            = some (nextResize numValues deletedRows, fields) ∧
        fields.length = resultFields.length ∧
        ((specs.map FieldSpec.channel).Nodup →
          ∀ s ∈ specs, s.channel < resultFields.length →
            fields.getD s.channel none
              = some (Vec.constV true s.constantVal
                  (nextResize numValues deletedRows)))) ∧
    (∀ s ∈ specs, s.isConstant = false →
      structNextNoChildren specs numValues deletedRows resultFields
        = none) := by
  constructor
  · intro hall
    obtain ⟨fs, heq, hlen, hget⟩ :=
      wrapConstants_all_some (nextResize numValues deletedRows) specs
        resultFields hall
    refine ⟨fs, ?_, hlen, hget⟩
    unfold structNextNoChildren
    rw [heq]
  · intro s hs hc
    unfold structNextNoChildren
    rw [wrapConstants_none_of_nonconst (nextResize numValues deletedRows)
      specs resultFields s hs hc]

/-- Witness for C10: two constant specs over a 5-row window with rows 1 and
3 deleted (bitmap 0b1010), and a fatal non-constant spec. -/
theorem next_no_children_wraps_constants_witness :
    (∃ fields,
      structNextNoChildren
          [⟨true, 0, true, some 7, 0, false, false⟩,
            ⟨true, 1, true, none, 0, false, false⟩] 5 (some 10) [none, none]
          = some (nextResize 5 (some 10), fields) ∧
      fields.length = 2 ∧
      (([⟨true, 0, true, some 7, 0, false, false⟩,
          ⟨true, 1, true, none, 0, false, false⟩].map
            FieldSpec.channel).Nodup →
        ∀ s ∈ [(⟨true, 0, true, some 7, 0, false, false⟩ : FieldSpec),
            ⟨true, 1, true, none, 0, false, false⟩], s.channel < 2 →
          fields.getD s.channel none
            = some (Vec.constV true s.constantVal (nextResize 5 (some 10))))) ∧
    structNextNoChildren [⟨true, 0, false, none, 0, false, false⟩] 5 none
        [none] = none := by
  constructor
  · exact (next_no_children_wraps_constants
      [⟨true, 0, true, some 7, 0, false, false⟩,
        ⟨true, 1, true, none, 0, false, false⟩] 5 (some 10) [none, none]).1
      (by decide)
  · exact (next_no_children_wraps_constants
      [⟨true, 0, false, none, 0, false, false⟩] 5 none [none]).2
      ⟨true, 0, false, none, 0, false, false⟩ (by decide) rfl

end VeloxModel

